import Mathlib

/-
Verification of the expiring key-value cache (cache.go).

The Go code is embedded shallowly:
- `time.Now().UnixNano()` becomes an explicit `now : Int` parameter
  (nanoseconds since the epoch), passed to every operation that reads
  the clock.
- `time.Duration` values become `Int` (nanoseconds).
- the `map[string]Item[T]` becomes an association list with the usual
  Go map semantics (unique keys; insert replaces in place).
- `T` stays a type parameter; where the Go code performs a dynamic type
  assertion (`any(v.Object).(int)`), the cache is instantiated at `GoVal`,
  a small universe of runtime values, and the assertion becomes a match.
- Go `int` arithmetic (64-bit two's complement) becomes `Int` reduced
  with `wrap64`.
- the eviction callback becomes a flag (`onEvictedSet`) plus the list of
  invocations `(key, value)` an operation performs after releasing the
  lock; the lock itself is invisible in this sequential model.
- `gob` decoding is external input: `Load` receives the decode result
  as an `Except`.
-/

namespace GoCache

/-- 64-bit two's-complement wraparound, the semantics of Go `int` addition. -/
def wrap64 (x : Int) : Int := (x + 2 ^ 63) % 2 ^ 64 - 2 ^ 63

/-- Model of Go runtime values stored in a cache instantiated at a dynamic
type, used for the operations that perform type assertions. -/
inductive GoVal where
  | intV (n : Int)
  | strV (s : String)
deriving DecidableEq, Repr

instance : Inhabited GoVal := ⟨GoVal.intV 0⟩

/-- `Item[T]`: a stored payload plus an absolute expiration instant in
UnixNano; `0` encodes "no expiration" (the Go zero value of `int64`). -/
structure Item (T : Type) where
  Object : T
  Expiration : Int
deriving DecidableEq, Repr

/-- `Item.Expired`: false when `Expiration == 0`, otherwise
`time.Now().UnixNano() > Expiration`. -/
def Item.Expired {T : Type} (item : Item T) (now : Int) : Bool :=
  if item.Expiration == 0 then false
  else decide (item.Expiration < now)

/-- `Item.SetValue`: replaces the payload, preserving `Expiration`.
(The Go type switch assigns only when the dynamic type matches `T`;
in this embedding the argument already has type `T`.) -/
def Item.SetValue {T : Type} (item : Item T) (v : T) : Item T :=
  { item with Object := v }

/-- `NoExpiration`, the sentinel duration `-1`. -/
def NoExpiration : Int := -1

/-- `DefaultExpiration`, the sentinel duration `0`. -/
def DefaultExpiration : Int := 0

/-- Go map lookup `m[k]` on the association-list model. -/
def mapFind {T : Type} : List (String × Item T) → String → Option (Item T)
  | [], _ => none
  | (k', v) :: rest, k => if k' = k then some v else mapFind rest k

/-- Go map assignment `m[k] = v`: replace in place, or append when absent. -/
def mapInsert {T : Type} : List (String × Item T) → String → Item T → List (String × Item T)
  | [], k, v => [(k, v)]
  | (k', v') :: rest, k, v =>
    if k' = k then (k, v) :: rest else (k', v') :: mapInsert rest k v

/-- Go `delete(m, k)`. -/
def mapErase {T : Type} : List (String × Item T) → String → List (String × Item T)
  | [], _ => []
  | (k', v') :: rest, k =>
    if k' = k then mapErase rest k else (k', v') :: mapErase rest k

/-- The `cache[T]` struct: default TTL, the item map, and whether an
eviction callback is installed (`onEvicted != nil`). -/
structure cache (T : Type) where
  defaultExpiration : Int
  items : List (String × Item T)
  onEvictedSet : Bool
deriving DecidableEq, Repr

variable {T : Type}

/-- `Set`: substitute the default TTL for `d == DefaultExpiration`, compute
an absolute deadline only when the effective duration is positive, then
overwrite the entry. -/
def cache.Set (c : cache T) (now : Int) (k : String) (x : T) (d : Int) : cache T :=
  let d' := if d == DefaultExpiration then c.defaultExpiration else d
  let e : Int := if d' > 0 then now + d' else 0
  { c with items := mapInsert c.items k ⟨x, e⟩ }

/-- Lowercase `set` (the lock-free variant): same computation as `Set`. -/
def cache.setUnlocked (c : cache T) (now : Int) (k : String) (x : T) (d : Int) : cache T :=
  let d' := if d == DefaultExpiration then c.defaultExpiration else d
  let e : Int := if d' > 0 then now + d' else 0
  { c with items := mapInsert c.items k ⟨x, e⟩ }

/-- `SetDefault`: `Set` with `DefaultExpiration`. -/
def cache.SetDefault (c : cache T) (now : Int) (k : String) (x : T) : cache T :=
  c.Set now k x DefaultExpiration

/-- Lowercase `get`: `none` when absent, or when `Expiration > 0` and
`now > Expiration`; otherwise the stored object. -/
def cache.getUnlocked (c : cache T) (now : Int) (k : String) : Option T :=
  match mapFind c.items k with
  | none => none
  | some item =>
    if item.Expiration > 0 then
      if item.Expiration < now then none
      else some item.Object
    else some item.Object

/-- `Get`: the public lookup, returning `(zero, false)` when absent or
expired and `(value, true)` otherwise. -/
def cache.Get [Inhabited T] (c : cache T) (now : Int) (k : String) : T × Bool :=
  match mapFind c.items k with
  | none => (default, false)
  | some item =>
    if item.Expiration > 0 then
      if item.Expiration < now then (default, false)
      else (item.Object, true)
    else (item.Object, true)

/-- `Add`: fails with "already exists" when `get` finds a live entry,
otherwise performs `set`. The first component is the returned error. -/
def cache.Add (c : cache T) (now : Int) (k : String) (x : T) (d : Int) :
    Option String × cache T :=
  match c.getUnlocked now k with
  | some _ => (some ("item " ++ k ++ " already exists"), c)
  | none => (none, c.setUnlocked now k x d)

/-- `Replace`: fails with "doesn't exist" when `get` finds nothing,
otherwise performs `set`. -/
def cache.Replace (c : cache T) (now : Int) (k : String) (x : T) (d : Int) :
    Option String × cache T :=
  match c.getUnlocked now k with
  | none => (some ("item " ++ k ++ " doesn't exist"), c)
  | some _ => (none, c.setUnlocked now k x d)

/-- `IncrementInt` on a cache of runtime values: not-found when absent or
`Expired`, type error when the payload is not an int, otherwise store and
return the wrapped sum, preserving `Expiration` via `SetValue`. -/
def cache.IncrementInt (c : cache GoVal) (now : Int) (k : String) (n : Int) :
    (Int × Option String) × cache GoVal :=
  match mapFind c.items k with
  | none => ((0, some ("item " ++ k ++ " not found")), c)
  | some v =>
    if v.Expired now then ((0, some ("item " ++ k ++ " not found")), c)
    else
      match v.Object with
      | GoVal.intV rv =>
        let nv := wrap64 (rv + n)
        ((nv, none), { c with items := mapInsert c.items k (v.SetValue (GoVal.intV nv)) })
      | _ => ((0, some ("the value for " ++ k ++ " is not an int")), c)

/-- Lowercase `delete`: remove the key; report `(value, true)` only when a
callback is installed and the key was present. -/
def cache.deleteUnlocked [Inhabited T] (c : cache T) (k : String) : cache T × (T × Bool) :=
  if c.onEvictedSet then
    match mapFind c.items k with
    | some v => ({ c with items := mapErase c.items k }, (v.Object, true))
    | none => ({ c with items := mapErase c.items k }, (default, false))
  else ({ c with items := mapErase c.items k }, (default, false))

/-- `Delete`: remove, then (after the lock is released) invoke the eviction
callback when the inner delete reported an eviction. The second component
is the list of callback invocations performed. -/
def cache.Delete [Inhabited T] (c : cache T) (k : String) : cache T × List (String × T) :=
  let r := c.deleteUnlocked k
  (r.1, if r.2.2 then [(k, r.2.1)] else [])

/-- `DeleteExpired`: sweep every entry with `Expiration > 0 && now > Expiration`,
collecting the callback invocations to run after the lock is released. -/
def cache.DeleteExpired [Inhabited T] (c : cache T) (now : Int) :
    cache T × List (String × T) :=
  c.items.foldl
    (fun acc kv =>
      if kv.2.Expiration > 0 && kv.2.Expiration < now then
        let r := acc.1.deleteUnlocked kv.1
        (r.1, if r.2.2 then acc.2 ++ [(kv.1, r.2.1)] else acc.2)
      else acc)
    (c, [])

/-- `ItemCount`: the raw size of the mapping, expired entries included. -/
def cache.ItemCount (c : cache T) : Nat := c.items.length

/-- The number of keys in the mapping that `Get` reports as found at `now`
(not a source function; used to state the lazy-expiration gap). -/
def cache.foundCount [Inhabited T] (c : cache T) (now : Int) : Nat :=
  (c.items.filter (fun kv => (c.Get now kv.1).2)).length

/-- `Flush`: replace the mapping with an empty one; no callback invocations. -/
def cache.Flush (c : cache T) : cache T × List (String × T) :=
  ({ c with items := [] }, [])

/-- The body of `Load`'s merge loop: keep an existing entry that is present
and not `Expired`, otherwise store the incoming one. -/
def loadStep (now : Int) (acc : cache T) (kv : String × Item T) : cache T :=
  match mapFind acc.items kv.1 with
  | none => { acc with items := mapInsert acc.items kv.1 kv.2 }
  | some ov =>
    if ov.Expired now then { acc with items := mapInsert acc.items kv.1 kv.2 }
    else acc

/-- `Load`: decode (externally) a key-to-item map; on success merge it in
entry by entry with `loadStep`; on decode failure return the error with the
store untouched. -/
def cache.Load (c : cache T) (now : Int)
    (decoded : Except String (List (String × Item T))) : Option String × cache T :=
  match decoded with
  | Except.error e => (some e, c)
  | Except.ok items => (none, items.foldl (loadStep now) c)

/-- `newCache`: normalize `de == 0` to `-1`, wrap the given map. -/
def newCache (de : Int) (m : List (String × Item T)) : cache T :=
  let de' := if de == 0 then -1 else de
  { defaultExpiration := de', items := m, onEvictedSet := false }

/-- The events a janitor goroutine can observe: a ticker tick, carrying the
clock value at that instant, or the stop signal. -/
inductive JEvent where
  | tick (now : Int)
  | stop
deriving DecidableEq, Repr

/-- The janitor loop's control state: looping in the select, or returned. -/
inductive JState where
  | running
  | stopped
deriving DecidableEq, Repr

/-- One iteration of `janitor.Run`'s select loop: a tick triggers
`DeleteExpired`; the stop signal makes the goroutine return; once returned
it reacts to nothing. The `Nat` counts `DeleteExpired` invocations. -/
def janitorRun [Inhabited T] : JState → cache T → List JEvent → JState × cache T × Nat
  | s, c, [] => (s, c, 0)
  | JState.running, c, JEvent.tick now :: es =>
    let r := janitorRun JState.running (c.DeleteExpired now).1 es
    (r.1, r.2.1, r.2.2 + 1)
  | JState.running, c, JEvent.stop :: es => janitorRun JState.stopped c es
  | JState.stopped, c, _ :: es => janitorRun JState.stopped c es

/-! ### Association-list lemmas -/

theorem mapFind_insert_self (m : List (String × Item T)) (k : String) (v : Item T) :
    mapFind (mapInsert m k v) k = some v := by
  induction m with
  | nil => simp [mapFind, mapInsert]
  | cons hd tl ih =>
    by_cases h : hd.1 = k
    · simp [mapInsert, mapFind, h]
    · simp [mapInsert, mapFind, h, ih]

theorem mapFind_insert_ne (m : List (String × Item T)) (k k' : String) (v : Item T)
    (h : k' ≠ k) : mapFind (mapInsert m k' v) k = mapFind m k := by
  induction m with
  | nil => simp [mapFind, mapInsert, h]
  | cons hd tl ih =>
    by_cases hh : hd.1 = k'
    · simp [mapInsert, mapFind, hh, h]
    · simp only [mapInsert, if_neg hh]
      by_cases hk : hd.1 = k
      · simp [mapFind, hk]
      · simp [mapFind, hk, ih]

theorem mapFind_erase_self (m : List (String × Item T)) (k : String) :
    mapFind (mapErase m k) k = none := by
  induction m with
  | nil => simp [mapFind, mapErase]
  | cons hd tl ih =>
    by_cases h : hd.1 = k
    · simp [mapErase, h, ih]
    · simp [mapErase, mapFind, h, ih]

theorem mapFind_mem (m : List (String × Item T)) (k : String) (it : Item T)
    (h : mapFind m k = some it) : (k, it) ∈ m := by
  induction m with
  | nil => simp [mapFind] at h
  | cons hd tl ih =>
    by_cases hh : hd.1 = k
    · simp only [mapFind, if_pos hh] at h
      have heq : hd = (k, it) := by
        cases hd with
        | mk a b => simp_all
      rw [heq]
      exact List.mem_cons_self _ _
    · simp only [mapFind, if_neg hh] at h
      exact List.mem_cons_of_mem _ (ih h)

theorem filter_length_lt {α : Type} (p : α → Bool) (l : List α) (a : α)
    (ha : a ∈ l) (hpa : p a = false) : (l.filter p).length < l.length := by
  induction l with
  | nil => simp at ha
  | cons hd tl ih =>
    rcases List.mem_cons.mp ha with h | h
    · subst h
      simp only [List.filter, hpa, List.length_cons]
      exact Nat.lt_succ_of_le (List.length_filter_le p tl)
    · by_cases hp : p hd
      · simpa [List.filter, hp] using ih h
      · simp only [List.filter, Bool.not_eq_true] at hp ⊢
        rw [hp]
        exact Nat.lt_succ_of_lt (ih h)

/-! ### Claim theorems -/

/-- C1: after `Set(k, v, d)` at time `t0` with `d > 0`, `Get(k)` at time
`now` returns `(v, true)` exactly when `now ≤ t0 + d` (the entry is still
found at the exact expiration instant) and `(zero, false)` when
`now > t0 + d`. -/
theorem get_after_set_within_ttl [Inhabited T] (c : cache T) (t0 d now : Int)
    (k : String) (v : T) (ht0 : 0 < t0) (hd : 0 < d) :
    (c.Set t0 k v d).Get now k =
      if now ≤ t0 + d then (v, true) else (default, false) := by
  have hd0 : (d == DefaultExpiration) = false := by
    simp [DefaultExpiration]
    omega
  have hitems : (c.Set t0 k v d).items = mapInsert c.items k ⟨v, t0 + d⟩ := by
    simp [cache.Set, hd0, hd]
  have hpos : (0 : Int) < t0 + d := by omega
  simp only [cache.Get, hitems, mapFind_insert_self, hpos, if_pos]
  by_cases h : now ≤ t0 + d
  · rw [if_neg (by omega), if_pos h]
  · rw [if_pos (by omega), if_neg h]

/-- C1 witness: a concrete run at `t0 = 1`, `d = 2`, observed at `now = 3`
(the exact expiration instant), still found. -/
theorem get_after_set_within_ttl_witness :
    ((⟨-1, [], false⟩ : cache GoVal).Set 1 "a" (GoVal.intV 5) 2).Get 3 "a" =
      (GoVal.intV 5, true) := by
  have h := get_after_set_within_ttl (⟨-1, [], false⟩ : cache GoVal) 1 2 3 "a"
    (GoVal.intV 5) (by decide) (by decide)
  simpa using h

/-- C2: after `Set(k, v, NoExpiration)` the stored entry has the
no-expiration encoding, `Get(k)` returns `(v, true)` at every observation
time, and the entry disappears only via `Delete` or `Flush`. -/
theorem set_noExpiration_get_forever [Inhabited T] (c : cache T) (t0 : Int)
    (k : String) (v : T) :
    (∀ now : Int, (c.Set t0 k v NoExpiration).Get now k = (v, true)) ∧
    (∀ now : Int, (((c.Set t0 k v NoExpiration).Delete k).1).Get now k = (default, false)) ∧
    (∀ now : Int, (((c.Set t0 k v NoExpiration).Flush).1).Get now k = (default, false)) := by
  have hitems : (c.Set t0 k v NoExpiration).items = mapInsert c.items k ⟨v, 0⟩ := by
    simp [cache.Set, NoExpiration, DefaultExpiration]
  refine ⟨fun now => ?_, fun now => ?_, fun now => ?_⟩
  · simp [cache.Get, hitems, mapFind_insert_self]
  · have : (((c.Set t0 k v NoExpiration).Delete k).1).items
        = mapErase (c.Set t0 k v NoExpiration).items k := by
      simp only [cache.Delete, cache.deleteUnlocked]
      by_cases h : (c.Set t0 k v NoExpiration).onEvictedSet
      · rw [if_pos h]
        cases mapFind (c.Set t0 k v NoExpiration).items k <;> simp
      · rw [if_neg h]
    simp [cache.Get, this, mapFind_erase_self]
  · simp [cache.Get, cache.Flush, mapFind]

/-- C8: constructing with any `defaultTTL ≤ 0` behaves as "never": a
subsequent `SetDefault(k, v)` stores a no-expiration entry, found by `Get`
at every later time. -/
theorem nonpositive_defaultTTL_never_expires [Inhabited T] (de : Int)
    (m : List (String × Item T)) (t0 now : Int) (k : String) (v : T)
    (hde : de ≤ 0) :
    ((newCache de m).SetDefault t0 k v).Get now k = (v, true) := by
  have hd' : (newCache de m : cache T).defaultExpiration ≤ 0 ∧
      (newCache de m : cache T).defaultExpiration ≠ 0 := by
    simp only [newCache]
    by_cases h : de = 0
    · simp [h]
    · simp only [beq_iff_eq, if_neg h]
      exact ⟨hde, h⟩
  have hitems : ((newCache de m).SetDefault t0 k v).items
      = mapInsert (newCache de m : cache T).items k ⟨v, 0⟩ := by
    simp only [cache.SetDefault, cache.Set, DefaultExpiration, beq_self_eq_true,
      if_pos, if_true]
    rw [if_neg (by omega)]
  simp [cache.Get, hitems, mapFind_insert_self]

/-- C8 witness: `defaultTTL = -5` (negative, not the `-1` sentinel), set
then observed far in the future, still found. -/
theorem nonpositive_defaultTTL_never_expires_witness :
    ((newCache (-5) ([] : List (String × Item GoVal))).SetDefault 1 "k"
      (GoVal.strV "x")).Get 1000000000000 "k" = (GoVal.strV "x", true) := by
  have h := nonpositive_defaultTTL_never_expires (-5)
    ([] : List (String × Item GoVal)) 1 1000000000000 "k" (GoVal.strV "x")
    (by decide)
  simpa using h

/-- C9: the janitor's stopped state is terminal: from `stopped`, no event
sequence performs another `DeleteExpired` (the sweep count is zero) and the
store is left untouched. -/
theorem janitor_stopped_terminal [Inhabited T] (c : cache T) (evs : List JEvent) :
    janitorRun JState.stopped c evs = (JState.stopped, c, 0) := by
  induction evs with
  | nil => rfl
  | cons e es ih => simpa [janitorRun] using ih

/-- C10: `Set(k, v, d)` with any strictly negative `d` (not only the `-1`
sentinel) stores the no-expiration encoding, so `Get(k)` finds it at every
time. -/
theorem set_negative_duration_never_expires [Inhabited T] (c : cache T)
    (t0 now : Int) (k : String) (v : T) (d : Int) (hd : d < 0) :
    mapFind ((c.Set t0 k v d).items) k = some ⟨v, 0⟩ ∧
    (c.Set t0 k v d).Get now k = (v, true) := by
  have hd0 : (d == DefaultExpiration) = false := by
    simp [DefaultExpiration]
    omega
  have hitems : (c.Set t0 k v d).items = mapInsert c.items k ⟨v, 0⟩ := by
    simp only [cache.Set, hd0, Bool.false_eq_true, if_false]
    rw [if_neg (by omega)]
  exact ⟨by simp [hitems, mapFind_insert_self],
    by simp [cache.Get, hitems, mapFind_insert_self]⟩

/-- C10 witness: `d = -7` stores expiration `0` and is found much later. -/
theorem set_negative_duration_never_expires_witness :
    mapFind (((⟨500, [], false⟩ : cache GoVal).Set 10 "n" (GoVal.intV 9) (-7)).items) "n"
      = some ⟨GoVal.intV 9, 0⟩ ∧
    ((⟨500, [], false⟩ : cache GoVal).Set 10 "n" (GoVal.intV 9) (-7)).Get 999999 "n"
      = (GoVal.intV 9, true) := by
  have h := set_negative_duration_never_expires (⟨500, [], false⟩ : cache GoVal)
    10 999999 "n" (GoVal.intV 9) (-7) (by decide)
  simpa using h

/-- C3: `Add(k, v2, d)` on a key holding a live (non-`Expired`) entry fails
with the already-exists error and leaves the store unchanged, the original
item still in place; on a key that is absent, or whose entry is expired
(with a well-formed nonnegative expiration), it succeeds with exactly the
effect of `set(k, v2, d)`. -/
theorem add_live_fails_else_sets (c : cache T) (now : Int) (k : String)
    (x2 : T) (d : Int) :
    (∀ it : Item T, mapFind c.items k = some it → it.Expired now = false →
      c.Add now k x2 d = (some ("item " ++ k ++ " already exists"), c) ∧
        mapFind (c.Add now k x2 d).2.items k = some it) ∧
    (∀ it : Item T, mapFind c.items k = some it → it.Expired now = true →
      0 ≤ it.Expiration →
      c.Add now k x2 d = (none, c.setUnlocked now k x2 d)) ∧
    (mapFind c.items k = none →
      c.Add now k x2 d = (none, c.setUnlocked now k x2 d)) := by
  refine ⟨fun it hfind hlive => ?_, fun it hfind hexp hnn => ?_, fun habs => ?_⟩
  · have hget : c.getUnlocked now k = some it.Object := by
      simp only [cache.getUnlocked, hfind]
      by_cases hpos : it.Expiration > 0
      · have : ¬ it.Expiration < now := by
          simp only [Item.Expired, beq_iff_eq] at hlive
          rw [if_neg (by omega)] at hlive
          simpa using hlive
        rw [if_pos hpos, if_neg this]
      · rw [if_neg hpos]
    constructor
    · simp [cache.Add, hget]
    · simp [cache.Add, hget, hfind]
  · have hget : c.getUnlocked now k = none := by
      have h0 : it.Expiration ≠ 0 := by
        intro h
        simp [Item.Expired, h] at hexp
      have hlt : it.Expiration < now := by
        simp only [Item.Expired, beq_iff_eq, if_neg h0] at hexp
        simpa using hexp
      simp only [cache.getUnlocked, hfind]
      rw [if_pos (by omega), if_pos hlt]
    simp [cache.Add, hget]
  · have hget : c.getUnlocked now k = none := by
      simp [cache.getUnlocked, habs]
    simp [cache.Add, hget]

/-- C3 witness: adding over a live never-expiring entry fails and keeps the
old value; adding over an expired entry succeeds as a `set`. -/
theorem add_live_fails_else_sets_witness :
    ((⟨-1, [("k", ⟨GoVal.intV 1, 0⟩)], false⟩ : cache GoVal).Add 5 "k"
        (GoVal.intV 2) (-1)
      = (some "item k already exists", ⟨-1, [("k", ⟨GoVal.intV 1, 0⟩)], false⟩)) ∧
    ((⟨-1, [("k", ⟨GoVal.intV 1, 3⟩)], false⟩ : cache GoVal).Add 5 "k"
        (GoVal.intV 2) (-1)
      = (none, (⟨-1, [("k", ⟨GoVal.intV 1, 3⟩)], false⟩ : cache GoVal).setUnlocked
          5 "k" (GoVal.intV 2) (-1))) := by
  constructor
  · exact ((add_live_fails_else_sets
      (⟨-1, [("k", ⟨GoVal.intV 1, 0⟩)], false⟩ : cache GoVal) 5 "k"
      (GoVal.intV 2) (-1)).1 ⟨GoVal.intV 1, 0⟩ (by decide) (by decide)).1
  · exact (add_live_fails_else_sets
      (⟨-1, [("k", ⟨GoVal.intV 1, 3⟩)], false⟩ : cache GoVal) 5 "k"
      (GoVal.intV 2) (-1)).2.1 ⟨GoVal.intV 1, 3⟩ (by decide) (by decide) (by decide)

/-- C4: `IncrementInt(k, n)` on a present, non-expired entry holding an int
returns the new value (64-bit wraparound sum) with no error, stores that
value, and preserves the entry's expiration instant exactly. -/
theorem incrementInt_adds_preserves_expiration (c : cache GoVal) (now : Int)
    (k : String) (n rv : Int) (it : Item GoVal)
    (hfind : mapFind c.items k = some it)
    (hexp : it.Expired now = false)
    (hval : it.Object = GoVal.intV rv) :
    c.IncrementInt now k n =
      ((wrap64 (rv + n), none),
        { c with items := mapInsert c.items k ⟨GoVal.intV (wrap64 (rv + n)), it.Expiration⟩ }) ∧
    mapFind (c.IncrementInt now k n).2.items k
      = some ⟨GoVal.intV (wrap64 (rv + n)), it.Expiration⟩ := by
  obtain ⟨obj, exp⟩ := it
  simp only at hval
  subst hval
  have h1 : c.IncrementInt now k n =
      ((wrap64 (rv + n), none),
        { c with items := mapInsert c.items k ⟨GoVal.intV (wrap64 (rv + n)), exp⟩ }) := by
    simp [cache.IncrementInt, hfind, hexp, Item.SetValue]
  exact ⟨h1, by simp [h1, mapFind_insert_self]⟩

/-- C4 witness: incrementing a stored 10 by 5 at a live instant yields 15
and keeps the expiration instant 42. -/
theorem incrementInt_adds_preserves_expiration_witness :
    (⟨-1, [("x", ⟨GoVal.intV 10, 42⟩)], false⟩ : cache GoVal).IncrementInt 7 "x" 5
      = ((15, none),
        ⟨-1, [("x", ⟨GoVal.intV 15, 42⟩)], false⟩) := by
  have h := (incrementInt_adds_preserves_expiration
    (⟨-1, [("x", ⟨GoVal.intV 10, 42⟩)], false⟩ : cache GoVal) 7 "x" 5 10
    ⟨GoVal.intV 10, 42⟩ (by decide) (by decide) rfl).1
  rw [h]
  decide

/-- C5: `Get` on a present-but-expired entry reports not-found without
modifying the mapping, and `ItemCount` (the raw mapping size) strictly
exceeds the number of keys `Get` reports as found. -/
theorem get_expired_lazy_itemCount [Inhabited T] (c : cache T) (now : Int)
    (k : String) (it : Item T)
    (hfind : mapFind c.items k = some it)
    (hpos : 0 < it.Expiration) (hexp : it.Expiration < now) :
    c.Get now k = (default, false) ∧
    mapFind c.items k = some it ∧
    c.foundCount now < c.ItemCount := by
  have hget : c.Get now k = (default, false) := by
    simp only [cache.Get, hfind]
    rw [if_pos hpos, if_pos hexp]
  refine ⟨hget, hfind, ?_⟩
  have hmem : (k, it) ∈ c.items := mapFind_mem c.items k it hfind
  have hp : (fun kv : String × Item T => (c.Get now kv.1).2) (k, it) = false := by
    simp [hget]
  exact filter_length_lt _ c.items (k, it) hmem hp

/-- C5 witness: one expired entry — `Get` misses, yet `ItemCount = 1`
exceeds the zero found keys. -/
theorem get_expired_lazy_itemCount_witness :
    (⟨-1, [("k", ⟨GoVal.intV 1, 10⟩)], false⟩ : cache GoVal).Get 20 "k"
      = (default, false) ∧
    mapFind (⟨-1, [("k", ⟨GoVal.intV 1, 10⟩)], false⟩ : cache GoVal).items "k"
      = some ⟨GoVal.intV 1, 10⟩ ∧
    (⟨-1, [("k", ⟨GoVal.intV 1, 10⟩)], false⟩ : cache GoVal).foundCount 20
      < (⟨-1, [("k", ⟨GoVal.intV 1, 10⟩)], false⟩ : cache GoVal).ItemCount :=
  get_expired_lazy_itemCount (⟨-1, [("k", ⟨GoVal.intV 1, 10⟩)], false⟩ : cache GoVal)
    20 "k" ⟨GoVal.intV 1, 10⟩ (by decide) (by decide) (by decide)

/-- C6: with an eviction callback registered, `Delete(k)` on an existing
entry performs exactly one callback invocation, with the removed key and
its stored value; `Flush` performs none, whatever the cache holds. -/
theorem delete_callback_once_flush_none [Inhabited T] (c : cache T)
    (k : String) (it : Item T)
    (hcb : c.onEvictedSet = true)
    (hfind : mapFind c.items k = some it) :
    (c.Delete k).2 = [(k, it.Object)] ∧
    ∀ c2 : cache T, (cache.Flush c2).2 = [] := by
  constructor
  · simp [cache.Delete, cache.deleteUnlocked, hcb, hfind]
  · intro c2
    rfl

/-- C6 witness: deleting the single entry of a callback-equipped cache
yields exactly one invocation `("k", 1)`; flushing yields none. -/
theorem delete_callback_once_flush_none_witness :
    ((⟨-1, [("k", ⟨GoVal.intV 1, 0⟩)], true⟩ : cache GoVal).Delete "k").2
      = [("k", GoVal.intV 1)] ∧
    ∀ c2 : cache GoVal, (cache.Flush c2).2 = [] :=
  delete_callback_once_flush_none
    (⟨-1, [("k", ⟨GoVal.intV 1, 0⟩)], true⟩ : cache GoVal) "k"
    ⟨GoVal.intV 1, 0⟩ (by decide) (by decide)

theorem loadStep_find_self (now : Int) (c : cache T) (kv : String × Item T) :
    mapFind ((loadStep now c kv).items) kv.1 =
      (match mapFind c.items kv.1 with
       | none => some kv.2
       | some ov => if ov.Expired now then some kv.2 else some ov) := by
  cases h : mapFind c.items kv.1 with
  | none => simp [loadStep, h, mapFind_insert_self]
  | some ov =>
    by_cases he : ov.Expired now
    · simp [loadStep, h, he, mapFind_insert_self]
    · simp [loadStep, h, he]

theorem loadStep_find_ne (now : Int) (c : cache T) (kv : String × Item T)
    (k : String) (hk : kv.1 ≠ k) :
    mapFind ((loadStep now c kv).items) k = mapFind c.items k := by
  cases h : mapFind c.items kv.1 with
  | none => simp [loadStep, h, mapFind_insert_ne _ _ _ _ hk]
  | some ov =>
    by_cases he : ov.Expired now
    · simp [loadStep, h, he, mapFind_insert_ne _ _ _ _ hk]
    · simp [loadStep, h, he]

theorem loadFold_find_not_mem (now : Int) (inc : List (String × Item T))
    (c : cache T) (k : String) (hk : k ∉ inc.map Prod.fst) :
    mapFind ((inc.foldl (loadStep now) c).items) k = mapFind c.items k := by
  induction inc generalizing c with
  | nil => rfl
  | cons hd tl ih =>
    simp only [List.map_cons, List.mem_cons, not_or] at hk
    rw [List.foldl_cons, ih _ hk.2, loadStep_find_ne now c hd k (fun h => hk.1 h.symm)]

/-- C7: `Load` with a failed decode returns the decode error and leaves the
store untouched; `Load` of a successfully decoded mapping (unique keys, as
a Go map yields) merges under the policy: an incoming key whose existing
entry is present and not `Expired` is skipped, otherwise the incoming entry
overwrites. -/
theorem load_merge_policy_and_decode_error (c : cache T) (now : Int)
    (inc : List (String × Item T)) (e : String)
    (hnodup : (inc.map Prod.fst).Nodup) :
    c.Load now (Except.error e) = (some e, c) ∧
    ∀ kv ∈ inc,
      mapFind ((c.Load now (Except.ok inc)).2).items kv.1 =
        (match mapFind c.items kv.1 with
         | none => some kv.2
         | some ov => if ov.Expired now then some kv.2 else some ov) := by
  refine ⟨rfl, ?_⟩
  have main : ∀ (l : List (String × Item T)) (c0 : cache T),
      (l.map Prod.fst).Nodup →
      ∀ kv ∈ l, mapFind ((l.foldl (loadStep now) c0).items) kv.1 =
        (match mapFind c0.items kv.1 with
         | none => some kv.2
         | some ov => if ov.Expired now then some kv.2 else some ov) := by
    intro l
    induction l with
    | nil =>
      intro c0 _ kv hkv
      simp at hkv
    | cons hd tl ih =>
      intro c0 hnd kv hkv
      simp only [List.map_cons, List.nodup_cons] at hnd
      rw [List.foldl_cons]
      rcases List.mem_cons.mp hkv with h | h
      · subst h
        rw [loadFold_find_not_mem now tl (loadStep now c0 kv) kv.1 hnd.1]
        exact loadStep_find_self now c0 kv
      · have hne : hd.1 ≠ kv.1 := by
          intro heq
          apply hnd.1
          rw [heq]
          exact List.mem_map_of_mem Prod.fst h
        rw [ih (loadStep now c0 hd) hnd.2 kv h, loadStep_find_ne now c0 hd kv.1 hne]
  exact fun kv hkv => main inc c hnodup kv hkv

/-- C7 witness: decode failure leaves a two-entry store unchanged; on
success the live key "a" is kept while the expired key "b" is overwritten
by the incoming entry. -/
theorem load_merge_policy_and_decode_error_witness :
    ((⟨-1, [("a", ⟨GoVal.intV 1, 0⟩), ("b", ⟨GoVal.intV 2, 10⟩)], false⟩ : cache GoVal).Load
        20 (Except.error "bad")
      = (some "bad",
          ⟨-1, [("a", ⟨GoVal.intV 1, 0⟩), ("b", ⟨GoVal.intV 2, 10⟩)], false⟩)) ∧
    mapFind (((⟨-1, [("a", ⟨GoVal.intV 1, 0⟩), ("b", ⟨GoVal.intV 2, 10⟩)], false⟩ : cache GoVal).Load
        20 (Except.ok [("a", ⟨GoVal.intV 9, 0⟩), ("b", ⟨GoVal.intV 8, 0⟩)])).2).items "b"
      = some ⟨GoVal.intV 8, 0⟩ ∧
    mapFind (((⟨-1, [("a", ⟨GoVal.intV 1, 0⟩), ("b", ⟨GoVal.intV 2, 10⟩)], false⟩ : cache GoVal).Load
        20 (Except.ok [("a", ⟨GoVal.intV 9, 0⟩), ("b", ⟨GoVal.intV 8, 0⟩)])).2).items "a"
      = some ⟨GoVal.intV 1, 0⟩ := by
  have h := load_merge_policy_and_decode_error
    (⟨-1, [("a", ⟨GoVal.intV 1, 0⟩), ("b", ⟨GoVal.intV 2, 10⟩)], false⟩ : cache GoVal) 20
    [("a", ⟨GoVal.intV 9, 0⟩), ("b", ⟨GoVal.intV 8, 0⟩)] "bad" (by decide)
  refine ⟨h.1, ?_, ?_⟩
  · exact (h.2 ("b", ⟨GoVal.intV 8, 0⟩) (by decide)).trans (by decide)
  · exact (h.2 ("a", ⟨GoVal.intV 9, 0⟩) (by decide)).trans (by decide)

end GoCache
